import Mathlib

/-!
# EulerQ — verification of the geometry/evaluation layer and the annealing engine

Shallow embedding of the algorithmic core of the EulerQ repository:

* `src/lib/routeHelpers.ts` — haversine, `routeDistanceKm`, `greedyRoute`,
  `ensureClosed`, `orderToPolyline`;
* `src/components/RouteOptimizer.tsx` — `buildDistanceMatrix`,
  `distanceForOrderIncludingDepots`, the result assembly of `optimize()`;
* `src/lib/runOptimize.ts` — the result assembly of `runOptimize`;
* `src/components/QuboPlayground.tsx` — `parseMatrix`, `energyQubo`, the
  simulated-annealing loop of `run()` and the reset effect.

Numbers: the TypeScript code computes with IEEE doubles; the embedding uses an
arbitrary `LinearOrderedField` (instantiated at `ℝ` or, for executable
witnesses, at `ℚ`).  The transcendental haversine metric is embedded at `ℝ`
via `Real.sin`/`Real.cos`/`Real.arcsin`/`Real.sqrt`; combinatorial helpers are
additionally parameterised by the metric `hv` so that they stay executable and
their properties can be evaluated on concrete rational inputs.
Stochastic choices of the annealing loop (`Math.random()`) are modelled as
explicit input oracles: the flipped bit index and the uniform draw are
arguments of the step function.
-/

namespace EulerQ

/-- `LatLng` from `routeHelpers.ts`: a coordinate pair. -/
structure LatLng (α : Type) where
  lat : α
  lng : α
deriving DecidableEq, Repr

/-- Default point used to totalise the partial array indexing `pts[idx]` of the
source (out-of-range access is a caller contract violation per the spec). -/
def pt0 {α : Type} [LinearOrderedField α] : LatLng α := ⟨0, 0⟩

/-- `toRad` from `routeHelpers.ts` (degrees to radians). -/
noncomputable def toRad (d : ℝ) : ℝ := d * Real.pi / 180

/-- `haversine` from `routeHelpers.ts`: great-circle distance, Earth radius
6371 km. -/
noncomputable def haversine (a b : LatLng ℝ) : ℝ :=
  let R : ℝ := 6371
  let dLat := toRad (b.lat - a.lat)
  let dLng := toRad (b.lng - a.lng)
  let lat1 := toRad a.lat
  let lat2 := toRad b.lat
  let h := Real.sin (dLat / 2) ^ 2 +
    Real.cos lat1 * Real.cos lat2 * Real.sin (dLng / 2) ^ 2
  2 * R * Real.arcsin (Real.sqrt h)

section Route

variable {α : Type} [LinearOrderedField α]

/-- One iteration of the accumulation loop of `routeDistanceKm`
(`total += haversine(cur, pts[idx]); cur = pts[idx]`), folded over `order`.
The metric `hv` stands for `haversine`. -/
def routeStep (hv : LatLng α → LatLng α → α) (pts : List (LatLng α))
    (ac : α × LatLng α) (idx : ℕ) : α × LatLng α :=
  (ac.1 + hv ac.2 (pts.getD idx pt0), pts.getD idx pt0)

/-- `routeDistanceKm` from `routeHelpers.ts`: depot-aware tour length of
`order` over the stop set `pts`; `start` is the mandatory start depot, `endP`
the optional end depot.  If `roundTrip` the tour closes back to `start`,
otherwise it ends at `endP` when present. -/
def routeDistanceKm (hv : LatLng α → LatLng α → α) (start : LatLng α)
    (endP : Option (LatLng α)) (pts : List (LatLng α)) (order : List ℕ)
    (roundTrip : Bool) : α :=
  match order with
  | [] => 0
  | _ =>
    let tc := order.foldl (routeStep hv pts) (0, start)
    if roundTrip then tc.1 + hv tc.2 start
    else
      match endP with
      | some e => tc.1 + hv tc.2 e
      | none => tc.1

/-- Sum of the leg lengths of a path that starts at `cur` and visits the
stops of `order` in sequence (specification companion of the fold in
`routeDistanceKm`). -/
def pathSum (hv : LatLng α → LatLng α → α) (pts : List (LatLng α)) :
    LatLng α → List ℕ → α
  | _, [] => 0
  | cur, i :: rest =>
    hv cur (pts.getD i pt0) + pathSum hv pts (pts.getD i pt0) rest

/-- Sum of `distance(stops[order[k]], stops[order[k+1]])` over consecutive
pairs of `order` (the middle part of the spec's tour-distance formula). -/
def consecSum (hv : LatLng α → LatLng α → α) (pts : List (LatLng α)) :
    List ℕ → α
  | [] => 0
  | [_] => 0
  | a :: b :: rest =>
    hv (pts.getD a pt0) (pts.getD b pt0) + consecSum hv pts (b :: rest)

/-- The position reached after visiting the stops of `order` starting from
`cur` (the final value of the loop variable `cur` in `routeDistanceKm`). -/
def lastPos (pts : List (LatLng α)) : LatLng α → List ℕ → LatLng α
  | cur, [] => cur
  | _, i :: rest => lastPos pts (pts.getD i pt0) rest

/-- The accumulator update of the selection loop in `greedyRoute`
(`if (d < bestD) { bestD = d; best = i; }`).  `none` models the initial
`best = -1, bestD = Infinity` state, in which the first candidate always
wins (all distances of interest are finite). -/
def selStep (hv : LatLng α → LatLng α → α) (pts : List (LatLng α))
    (cur : LatLng α) (best : Option (ℕ × α)) (i : ℕ) : Option (ℕ × α) :=
  let d := hv cur (pts.getD i pt0)
  match best with
  | none => some (i, d)
  | some (b, bd) => if d < bd then some (i, d) else some (b, bd)

/-- The inner `for (const i of unvis)` selection loop of `greedyRoute`:
index of the unvisited stop nearest to `cur` (first encountered on ties),
`none` when `unvis` is empty. -/
def selectNearest (hv : LatLng α → LatLng α → α) (pts : List (LatLng α))
    (cur : LatLng α) (unvis : List ℕ) : Option ℕ :=
  (unvis.foldl (selStep hv pts cur) none).map (fun p => p.1)

/-- The `while (unvis.size)` loop of `greedyRoute`, with explicit fuel
(the loop removes one element of `unvis` per iteration, so
`fuel = unvis.length` runs it to completion). -/
def greedyGo (hv : LatLng α → LatLng α → α) (pts : List (LatLng α)) :
    ℕ → LatLng α → List ℕ → List ℕ
  | 0, _, _ => []
  | fuel + 1, cur, unvis =>
    match selectNearest hv pts cur unvis with
    | none => []
    | some b => b :: greedyGo hv pts fuel (pts.getD b pt0) (unvis.erase b)

/-- `greedyRoute` from `routeHelpers.ts`: nearest-neighbour order over all
stops, starting from `start`.  The second source parameter `_end` is unused
by the source and therefore omitted here. -/
def greedyRoute (hv : LatLng α → LatLng α → α) (start : LatLng α)
    (pts : List (LatLng α)) : List ℕ :=
  greedyGo hv pts pts.length start (List.range pts.length)

/-- Greedy characterisation: `IsGreedy hv pts cur unvis out` says `out` is
obtained by repeatedly taking, among the still-unvisited stops `unvis`, one
at minimum `hv`-distance from the current position, ties broken by the
lowest stop index. -/
inductive IsGreedy (hv : LatLng α → LatLng α → α) (pts : List (LatLng α)) :
    LatLng α → List ℕ → List ℕ → Prop where
  | nil (cur : LatLng α) : IsGreedy hv pts cur [] []
  | cons (cur : LatLng α) (unvis : List ℕ) (b : ℕ) (rest : List ℕ)
      (hmem : b ∈ unvis)
      (hmin : ∀ j ∈ unvis,
        hv cur (pts.getD b pt0) ≤ hv cur (pts.getD j pt0))
      (htie : ∀ j ∈ unvis,
        hv cur (pts.getD j pt0) = hv cur (pts.getD b pt0) → b ≤ j)
      (hrest : IsGreedy hv pts (pts.getD b pt0) (unvis.erase b) rest) :
      IsGreedy hv pts cur unvis (b :: rest)

/-- `nearlyEqual` from `routeHelpers.ts` (`eps = 1e-9`). -/
def nearlyEqual (a b : α) : Prop := |a - b| ≤ 1 / 1000000000

instance : DecidablePred fun p : α × α => nearlyEqual p.1 p.2 := by
  intro p; unfold nearlyEqual; infer_instance

instance nearlyEqualDecidable (a b : α) : Decidable (nearlyEqual a b) := by
  unfold nearlyEqual; infer_instance

/-- `ensureClosed` from `routeHelpers.ts`: if `roundTrip` and the path's last
point is not within `1e-9` of its first in each coordinate, append the first
point. -/
def ensureClosed (path : List (α × α)) (roundTrip : Bool) :
    List (α × α) :=
  if roundTrip = false ∨ path.length < 2 then path
  else
    let a := path.headD (0, 0)
    let z := path.getLastD (0, 0)
    if ¬ nearlyEqual a.1 z.1 ∨ ¬ nearlyEqual a.2 z.2 then path ++ [a]
    else path

/-- The `opts` argument of `orderToPolyline` (`roundTrip`, optional `start`,
optional `end`). -/
structure PolyOpts (α : Type) where
  roundTrip : Bool
  start : Option (LatLng α) := none
  endP : Option (LatLng α) := none

/-- Coordinate tuple of a point (`[c.lat, c.lng]` in the source). -/
def coord (c : LatLng α) : α × α := (c.lat, c.lng)

/-- `orderToPolyline` from `routeHelpers.ts` (the identical local copy in
`RouteOptimizer.tsx` is the same function): emit `start` if present, then the
stops in order, then `end` if present, else — when `roundTrip` — the closing
point (`start`, or the first visited stop); finally apply `ensureClosed`. -/
def orderToPolyline (order : List ℕ) (cities : List (LatLng α))
    (opts : PolyOpts α) : List (α × α) :=
  let pts1 : List (α × α) :=
    (match opts.start with
     | some s => [coord s]
     | none => []) ++
    order.map (fun idx => coord (cities.getD idx pt0))
  let pts2 : List (α × α) :=
    pts1 ++
    (match opts.endP with
     | some e => [coord e]
     | none =>
       if opts.roundTrip then
         match opts.start with
         | some s => [coord s]
         | none =>
           match order with
           | [] => []
           | i :: _ => [coord (cities.getD i pt0)]
       else [])
  ensureClosed pts2 opts.roundTrip

/-- `buildDistanceMatrix` from `RouteOptimizer.tsx`:
`D[i][j] = i === j ? 0 : haversine(points[i], points[j])`. -/
def buildDistanceMatrix (hv : LatLng α → LatLng α → α)
    (points : List (LatLng α)) : List (List α) :=
  (List.range points.length).map fun i =>
    (List.range points.length).map fun j =>
      if i = j then 0 else hv (points.getD i pt0) (points.getD j pt0)

/-- The `for (let k = 0; k < order.length - 1; k++) km += D[order[k]][order[k+1]]`
loop of `distanceForOrderIncludingDepots`, as a sum over consecutive pairs of
matrix entries. -/
def matrixConsecSum (D : List (List α)) : List ℕ → α
  | [] => 0
  | [_] => 0
  | a :: b :: rest => (D.getD a []).getD b 0 + matrixConsecSum D (b :: rest)

/-- `distanceForOrderIncludingDepots` from `RouteOptimizer.tsx`: depot-aware
tour length used by the front end for all comparison distances. -/
def distanceForOrderIncludingDepots (hv : LatLng α → LatLng α → α)
    (order : List ℕ) (cities : List (LatLng α)) (start endP : LatLng α)
    (roundTrip : Bool) : α :=
  match order with
  | [] => 0
  | o0 :: _ =>
    let D := buildDistanceMatrix hv cities
    hv start (cities.getD o0 pt0) + matrixConsecSum D order +
      (if roundTrip then hv (cities.getD (order.getLastD 0) pt0) start
       else hv (cities.getD (order.getLastD 0) pt0) endP)

end Route

section Qubo

variable {α : Type} [LinearOrderedField α]

/-- `energyQubo` from `QuboPlayground.tsx`: `E = xᵀQx`, summing `Q[i][j]`
over index pairs whose bits are both non-zero (the source skips
`x[i] === 0` / `x[j] === 0`). -/
def energyQubo (Q : List (List α)) (x : List ℕ) : α :=
  (List.range x.length).foldl
    (fun E i =>
      if x.getD i 0 = 0 then E
      else
        (List.range x.length).foldl
          (fun E2 j =>
            if x.getD j 0 = 0 then E2 else E2 + (Q.getD i []).getD j 0)
          E)
    0

/-- The mutable annealing state of `QuboPlayground.tsx`
(`xRef`, `ERef`, `bestXRef`, `bestERef`). -/
structure SAState (α : Type) where
  x : List ℕ
  E : α
  bestX : List ℕ
  bestE : α
deriving DecidableEq, Repr

/-- The hard-reset state of the `useEffect` in `QuboPlayground.tsx`: a fresh
assignment `x0`, its energy, and best-so-far equal to that same state. -/
def saInit (Q : List (List α)) (x0 : List ℕ) : SAState α :=
  { x := x0, E := energyQubo Q x0, bestX := x0, bestE := energyQubo Q x0 }

/-- One Metropolis proposal of the `run()` loop in `QuboPlayground.tsx`,
with the outcome of the acceptance test supplied as the boolean `acc`
(the test itself involves `Math.exp` and is embedded separately as
`metropolisAccept`): flip bit `i`, recompute the energy; on acceptance
update the current energy and, if it improves, snapshot the new best; on
rejection write the old bit back. -/
def saStep (Q : List (List α)) (s : SAState α) (i : ℕ) (acc : Bool) :
    SAState α :=
  let xi := s.x.getD i 0
  let x2 := s.x.set i (xi ^^^ 1)
  let Enew := energyQubo Q x2
  if acc then
    { x := x2, E := Enew,
      bestX := if Enew < s.bestE then x2 else s.bestX,
      bestE := if Enew < s.bestE then Enew else s.bestE }
  else
    { s with x := x2.set i xi }

/-- Temperature schedule of the `run()` loop:
`T = t0 + (t1 - t0) * (k / Math.max(1, total - 1))`. -/
def temp (t0 t1 : α) (total k : ℕ) : α :=
  t0 + (t1 - t0) * ((k : α) / ((max 1 (total - 1) : ℕ) : α))

/-- The spec's temperature formula `T = T0 + (T1 − T0)·k/(steps − 1)`,
written exactly as the spec states it (natural subtraction, division by the
cast of `steps − 1`). -/
def tempSpec (t0 t1 : α) (steps k : ℕ) : α :=
  t0 + (t1 - t0) * (k : α) / ((steps - 1 : ℕ) : α)

/-- A run of consecutive proposals: fold `saStep` over a list of
(bit index, acceptance outcome) pairs. -/
def saRun (Q : List (List α)) (s : SAState α) (props : List (ℕ × Bool)) :
    SAState α :=
  props.foldl (fun st p => saStep Q st p.1 p.2) s

/-- State published at the boundary of batch `j` (the `setX/setE/...` calls
of `run()`): the fold of the first `j` batches of proposals. -/
def saBatchState (Q : List (List α)) (s0 : SAState α)
    (batches : List (List (ℕ × Bool))) (j : ℕ) : SAState α :=
  saRun Q s0 (batches.take j).flatten

/-- The `while (k < total && !stopRef.current)` loop of `run()` at batch
granularity: before each batch the stop flag is consulted (`stop j` is its
value at the check preceding batch `j`); a set flag exits the loop with the
state of the last completed batch. -/
def saLoop (Q : List (List α)) (s : SAState α)
    (batches : List (List (ℕ × Bool))) (stop : ℕ → Bool) (j : ℕ) :
    SAState α :=
  match batches with
  | [] => s
  | b :: rest =>
    if stop j then s else saLoop Q (saRun Q s b) rest stop (j + 1)

/-- The Metropolis acceptance test of `run()`
(`dE <= 0 || Math.random() < Math.exp(-dE / Math.max(1e-9, T))`), with the
uniform draw `u` an explicit input. -/
def metropolisAccept (dE T u : ℝ) : Prop :=
  dE ≤ 0 ∨ u < Real.exp (-dE / max (1 / 1000000000) T)

/-- One full proposal of the `run()` loop at `ℝ`, acceptance test included:
proposal index `k`, flipped bit `i`, uniform draw `u`. -/
noncomputable def saStepR (Q : List (List ℝ)) (t0 t1 : ℝ) (total k i : ℕ)
    (u : ℝ) (s : SAState ℝ) : SAState ℝ :=
  let T := temp t0 t1 total k
  let xi := s.x.getD i 0
  let x2 := s.x.set i (xi ^^^ 1)
  let Enew := energyQubo Q x2
  let dE := Enew - s.E
  if dE ≤ 0 ∨ u < Real.exp (-dE / max (1 / 1000000000) T) then
    { x := x2, E := Enew,
      bestX := if Enew < s.bestE then x2 else s.bestX,
      bestE := if Enew < s.bestE then Enew else s.bestE }
  else
    { s with x := x2.set i xi }

/-- `PRESET_MAXCUT_6` from `QuboPlayground.tsx`. -/
def PRESET_MAXCUT_6 : List (List ℚ) :=
  [[0, -1, 0, -1, 0, -2],
   [-1, 0, -2, 0, -1, 0],
   [0, -2, 0, -1, -2, 0],
   [-1, 0, -1, 0, 0, -1],
   [0, -1, -2, 0, 0, -1],
   [-2, 0, 0, -1, -1, 0]]

/-- A 6×6 matrix differing from `PRESET_MAXCUT_6` in one entry
(`Q[0][1] = -3` instead of `-1`): a same-size matrix change. -/
def PRESET_MAXCUT_6_variant : List (List ℚ) :=
  [[0, -3, 0, -1, 0, -2],
   [-1, 0, -2, 0, -1, 0],
   [0, -2, 0, -1, -2, 0],
   [-1, 0, -1, 0, 0, -1],
   [0, -1, -2, 0, 0, -1],
   [-2, 0, 0, -1, -1, 0]]

/-- The dependency of the reset `useEffect` in `QuboPlayground.tsx` is `[n]`
with `n = Q?.length ?? 0`: React re-runs the effect exactly when that
dependency changes between renders. -/
def resetEffectFires (nOld nNew : ℕ) : Bool := nOld ≠ nNew

/-- `RunState` from `QuboPlayground.tsx`. -/
inductive RunState where
  | idle
  | running
  | stopped
deriving DecidableEq, Repr

/-- The guards at the top of `run()`: `if (!Q) return; if (state === "running")
return;` — a run can start only from a successfully parsed matrix and a
non-running state. -/
def runAllowed (Qopt : Option (List (List α))) (st : RunState) : Bool :=
  Qopt.isSome && !(st == RunState.running)

end Qubo

section MatrixInput

/-- Whitespace characters (the characters `trim` and the `\s` of the source's
split patterns act on; the embedding scopes `\s` to ASCII whitespace). -/
def isWs (c : Char) : Bool :=
  c = ' ' || c = '\t' || c = '\n' || c = '\r'

/-- Drop leading whitespace. -/
def skipWs : List Char → List Char
  | c :: t => if isWs c then skipWs t else c :: t
  | [] => []

/-- `trim`: drop whitespace on both ends. -/
def trimChars (cs : List Char) : List Char :=
  ((cs.dropWhile fun c => isWs c).reverse.dropWhile fun c => isWs c).reverse

/-- Longest prefix of decimal digits, and the rest. -/
def takeDigits : List Char → List Char × List Char
  | c :: t =>
    if c.isDigit then
      let (ds, r) := takeDigits t
      (c :: ds, r)
    else ([], c :: t)
  | [] => ([], [])

/-- Numeric value of a digit string. -/
def digitsToNat (ds : List Char) : ℕ :=
  ds.foldl (fun a c => a * 10 + (c.toNat - 48)) 0

/-- Parse one decimal number literal `-? digits (. digits)?` and return it
with the remaining input (the shape of number tokens the source's matrix
input uses; exponents and other JS `Number` quirks are outside the modelled
scope). -/
def parseNum (cs : List Char) : Option (ℚ × List Char) :=
  let (neg, cs1) :=
    match cs with
    | '-' :: t => (true, t)
    | _ => (false, cs)
  match takeDigits cs1 with
  | ([], _) => none
  | (ds, cs2) =>
    let ip : ℚ := (digitsToNat ds : ℚ)
    match cs2 with
    | '.' :: t =>
      match takeDigits t with
      | ([], _) => none
      | (fs, cs3) =>
        let v := ip + (digitsToNat fs : ℚ) / ((10 : ℚ) ^ fs.length)
        some (if neg then -v else v, cs3)
    | _ => some (if neg then -ip else ip, cs2)

/-- After the first element of a JSON row: repeatedly consume `, number`
until `]`.  Fuel-bounded (each step consumes at least one character). -/
def parseRowTail (hv : ℕ) (cs : List Char) (acc : List ℚ) :
    Option (List ℚ × List Char) :=
  match hv with
  | 0 => none
  | fuel + 1 =>
    match skipWs cs with
    | ']' :: t => some (acc.reverse, t)
    | ',' :: t =>
      match parseNum (skipWs t) with
      | some (q, r) => parseRowTail fuel r (q :: acc)
      | none => none
    | _ => none

/-- Parse one JSON row `[ number, ... ]`. -/
def parseRow (cs : List Char) : Option (List ℚ × List Char) :=
  match skipWs cs with
  | '[' :: t =>
    match skipWs t with
    | ']' :: r => some ([], r)
    | t1 =>
      match parseNum t1 with
      | some (q, r) => parseRowTail (r.length + 1) r [q]
      | none => none
  | _ => none

/-- After the first row of the JSON matrix: repeatedly consume `, row`
until `]`. -/
def parseMatTail (hv : ℕ) (cs : List Char) (acc : List (List ℚ)) :
    Option (List (List ℚ) × List Char) :=
  match hv with
  | 0 => none
  | fuel + 1 =>
    match skipWs cs with
    | ']' :: t => some (acc.reverse, t)
    | ',' :: t =>
      match parseRow t with
      | some (row, r) => parseMatTail fuel r (row :: acc)
      | none => none
    | _ => none

/-- The `JSON.parse` branch of `parseMatrix`, restricted to the shapes that
branch consumes without throwing: a JSON array of arrays of numbers (any
other input makes the branch throw, which the source catches by falling
through to the CSV parse; this embedding returns `none` there).  Note the
source applies no squareness check in this branch — the rows are returned
as-is. -/
def jsonParseMatrix (s : String) : Option (List (List ℚ)) :=
  match skipWs s.toList with
  | '[' :: t =>
    match skipWs t with
    | ']' :: r => if (skipWs r).isEmpty then some [] else none
    | t1 =>
      match parseRow t1 with
      | some (row, r) =>
        match parseMatTail (r.length + 1) r [row] with
        | some (rows, rest) =>
          if (skipWs rest).isEmpty then some rows else none
        | none => none
      | none => none
  | _ => none

/-- Drop a leading run of separator characters. -/
def dropSeps (p : Char → Bool) : List Char → List Char
  | c :: t => if p c then dropSeps p t else c :: t
  | [] => []

/-- Longest prefix free of separator characters, and the rest. -/
def takeTok (p : Char → Bool) : List Char → List Char × List Char
  | c :: t =>
    if p c then ([], c :: t)
    else
      let (a, b) := takeTok p t
      (c :: a, b)
  | [] => ([], [])

/-- Split on runs of separators (the behaviour of `split(/\n+/)` and
`split(/[,\s]+/)` on trimmed input), fuel-bounded. -/
def splitRunsGo (p : Char → Bool) : ℕ → List Char → List (List Char)
  | 0, _ => []
  | fuel + 1, cs =>
    match dropSeps p cs with
    | [] => []
    | c :: t =>
      let (a, b) := takeTok p t
      (c :: a) :: splitRunsGo p fuel b

/-- Split a character list on runs of separator characters. -/
def splitRuns (p : Char → Bool) (cs : List Char) : List (List Char) :=
  splitRunsGo p (cs.length + 1) cs

/-- JS `Number(token)` on a CSV token, for the decimal literals the matrix
input uses (`+`/`-` sign, digits, optional fraction): `none` models `NaN`,
which the source filters out. -/
def numberOfToken (t : List Char) : Option ℚ :=
  let t1 :=
    match t with
    | '+' :: r => r
    | _ => t
  match parseNum t1 with
  | some (q, []) => some q
  | _ => none

/-- The CSV fallback branch of `parseMatrix`: split the trimmed text on
newline runs, trim the rows and drop empty ones, split each row on runs of
commas/whitespace, convert tokens with `Number` dropping the `NaN`s, then
reject (`none`, the thrown error) if the first row is empty or the rows do
not all have the first row's length. -/
def csvParse (s : String) : Option (List (List ℚ)) :=
  let rows :=
    ((splitRuns (fun c => c = '\n') (trimChars s.toList)).map trimChars).filter
      fun r => !r.isEmpty
  let mat :=
    rows.map fun r =>
      (splitRuns (fun c => c = ',' || isWs c) r).filterMap numberOfToken
  let n := (mat.headD []).length
  if n = 0 then none
  else if mat.any fun r => r.length ≠ n then none
  else some mat

/-- `parseMatrix` from `QuboPlayground.tsx`: try the `JSON.parse` branch,
fall back to the loose CSV parse when it throws; `none` is a thrown parse
error (caught by the caller, which then leaves `Q = null`). -/
def parseMatrix (s : String) : Option (List (List ℚ)) :=
  match jsonParseMatrix s with
  | some m => some m
  | none => csvParse s

end MatrixInput

section Orchestrator

variable {α : Type} [LinearOrderedField α]

/-- Wire shape of the `/optimize/jij` response as consumed by the sources
(`jijRes?.route`, `jijRes?.polyline`, `jijRes?.distance_km`,
`jijRes?.energy`; absent fields are `none`). -/
structure JijWire (α : Type) where
  route : Option (List ℕ) := none
  polyline : Option (List (α × α)) := none
  distance_km : Option α := none
  energy : Option α := none

/-- Wire shape of `solution` in the `/api/solve` response
(`order`, `baseline_order`, `distance_km`, `baseline_km`). -/
structure ClSolution (α : Type) where
  order : Option (List ℕ) := none
  baseline_order : Option (List ℕ) := none
  distance_km : Option α := none
  baseline_km : Option α := none

/-- Wire shape of the `/api/solve` response (`ok`, `solution`). -/
structure ClWire (α : Type) where
  ok : Option Bool := none
  solution : Option (ClSolution α) := none

/-- One labelled solver result as assembled by `runOptimize` /
`RouteOptimizer.optimize`. -/
structure LabeledResult (α : Type) where
  label : String
  order : List ℕ
  polyline : List (α × α)
  km : Option α
  energy : Option α := none

/-- The result assembly of `runOptimize` (`src/lib/runOptimize.ts`), as a
pure function of the two (already JSON-decoded) responses: note the `km`
field of every label is taken from the response
(`jijRes?.distance_km ?? null`, `clRes?.solution?.distance_km ?? null`,
`clRes?.solution?.baseline_km ?? null`), not recomputed. -/
def runOptimizeModel (points : List (LatLng α)) (roundTrip : Bool)
    (startO endO : Option (LatLng α)) (jijRes : JijWire α)
    (clRes : ClWire α) :
    LabeledResult α × LabeledResult α × LabeledResult α :=
  let opts : PolyOpts α :=
    { roundTrip := roundTrip, start := startO, endP := endO }
  let jijPolyline :=
    jijRes.polyline.getD (orderToPolyline (jijRes.route.getD []) points opts)
  let quboOrder := (clRes.solution.bind fun s => s.order).getD []
  let greedyOrder := (clRes.solution.bind fun s => s.baseline_order).getD []
  let quboPolyline := orderToPolyline quboOrder points opts
  let greedyPolyline := orderToPolyline greedyOrder points opts
  (⟨"JIJ (Quantum-inspired)", jijRes.route.getD [],
      ensureClosed jijPolyline roundTrip, jijRes.distance_km,
      jijRes.energy⟩,
   ⟨"QUBO (Simulated Annealing)", quboOrder,
      ensureClosed quboPolyline roundTrip,
      clRes.solution.bind fun s => s.distance_km, none⟩,
   ⟨"Greedy baseline", greedyOrder,
      ensureClosed greedyPolyline roundTrip,
      clRes.solution.bind fun s => s.baseline_km, none⟩)

/-- Output of `RouteOptimizer.optimize`: the four labelled results the
component stores (`setJij`/`setQubo`/`setGreedy`/`setNaive`). -/
structure OptimizeOut (α : Type) where
  naive : LabeledResult α
  qubo : LabeledResult α
  greedy : LabeledResult α
  jij : LabeledResult α

/-- The result assembly of `optimize()` in `RouteOptimizer.tsx` as a pure
function of the two responses (`none` models the thrown error paths:
fewer than 5 sellers, or `clRes.ok === false`).  All comparison `km` values
are recomputed on the front end with `distanceForOrderIncludingDepots`
("FE unified totals ... ignore backend distances for comparisons"). -/
def optimizeAssemble (hv : LatLng α → LatLng α → α)
    (sellers : List (LatLng α)) (start endW : LatLng α)
    (sameAsStart : Bool) (clRes : ClWire α) (jijRes : JijWire α) :
    Option (OptimizeOut α) :=
  if sellers.length < 5 then none
  else
    let effectiveEnd := if sameAsStart then start else endW
    let rt := sameAsStart
    if clRes.ok = some false then none
    else
      let opts : PolyOpts α :=
        { roundTrip := rt, start := some start,
          endP := if sameAsStart then none else some effectiveEnd }
      let naiveOrder := List.range sellers.length
      let naivePolyline := orderToPolyline naiveOrder sellers opts
      let naiveKmU :=
        distanceForOrderIncludingDepots hv naiveOrder sellers start
          effectiveEnd rt
      let quboOrder := (clRes.solution.bind fun s => s.order).getD []
      let greedyOrder :=
        (clRes.solution.bind fun s => s.baseline_order).getD []
      let quboKmU :=
        if quboOrder.length ≠ 0 then
          some (distanceForOrderIncludingDepots hv quboOrder sellers start
            effectiveEnd rt)
        else none
      let greedyKmU :=
        if greedyOrder.length ≠ 0 then
          some (distanceForOrderIncludingDepots hv greedyOrder sellers start
            effectiveEnd rt)
        else none
      let quboPolyline := orderToPolyline quboOrder sellers opts
      let greedyPolyline := orderToPolyline greedyOrder sellers opts
      let jijOrder := jijRes.route.getD []
      let jijPolyline :=
        jijRes.polyline.getD (orderToPolyline jijOrder sellers opts)
      let jijKmU :=
        if jijOrder.length ≠ 0 then
          some (distanceForOrderIncludingDepots hv jijOrder sellers start
            effectiveEnd rt)
        else none
      some
        { naive := ⟨"Naive", naiveOrder, ensureClosed naivePolyline rt,
            some naiveKmU, none⟩,
          qubo := ⟨"QUBO (annealing)", quboOrder,
            ensureClosed quboPolyline rt, quboKmU, none⟩,
          greedy := ⟨"Greedy baseline", greedyOrder,
            ensureClosed greedyPolyline rt, greedyKmU, none⟩,
          jij := ⟨"JIJ (Quantum-inspired)", jijOrder,
            ensureClosed jijPolyline rt, jijKmU, jijRes.energy⟩ }

end Orchestrator

/-! ## Theorems -/

section RouteTheorems

variable {α : Type} [LinearOrderedField α]

theorem foldl_routeStep (hv : LatLng α → LatLng α → α)
    (pts : List (LatLng α)) :
    ∀ (l : List ℕ) (t : α) (cur : LatLng α),
      l.foldl (routeStep hv pts) (t, cur) =
        (t + pathSum hv pts cur l, lastPos pts cur l) := by
  intro l
  induction l with
  | nil => intro t cur; simp [pathSum, lastPos]
  | cons i rest ih =>
    intro t cur
    simp only [List.foldl_cons, routeStep, pathSum, lastPos, ih, add_assoc]

theorem pathSum_eq_consecSum (hv : LatLng α → LatLng α → α)
    (pts : List (LatLng α)) :
    ∀ (l : List ℕ) (a : ℕ),
      pathSum hv pts (pts.getD a pt0) l = consecSum hv pts (a :: l) := by
  intro l
  induction l with
  | nil => intro a; simp [pathSum, consecSum]
  | cons b t ih => intro a; simp only [pathSum, consecSum, ih]

theorem lastPos_eq_getLastD (pts : List (LatLng α)) :
    ∀ (l : List ℕ) (cur : LatLng α) (d : ℕ), l ≠ [] →
      lastPos pts cur l = pts.getD (l.getLastD d) pt0 := by
  intro l
  induction l with
  | nil => intro _ _ h; exact absurd rfl h
  | cons i rest ih =>
    intro cur d _
    cases rest with
    | nil => simp [lastPos, List.getLastD]
    | cons j t =>
      show lastPos pts (pts.getD i pt0) (j :: t) =
        pts.getD ((i :: j :: t).getLastD d) pt0
      rw [List.getLastD_cons]
      exact ih (pts.getD i pt0) i (by simp)

theorem haversine_symm (a b : LatLng ℝ) : haversine a b = haversine b a := by
  have harg : ∀ u v : ℝ, u = v →
      2 * (6371 : ℝ) * Real.arcsin (Real.sqrt u) =
        2 * 6371 * Real.arcsin (Real.sqrt v) := by
    intro u v h; rw [h]
  simp only [haversine, toRad]
  apply harg
  have e1 : (a.lat - b.lat) * Real.pi / 180 / 2 =
      -((b.lat - a.lat) * Real.pi / 180 / 2) := by ring
  have e2 : (a.lng - b.lng) * Real.pi / 180 / 2 =
      -((b.lng - a.lng) * Real.pi / 180 / 2) := by ring
  rw [e1, e2, Real.sin_neg, Real.sin_neg]
  ring

/-- C3: `routeDistanceKm` returns 0 on the empty order; on a non-empty order
over in-range indices it is exactly `distance(start, stops[order[0]])` plus
the sum of consecutive-pair distances, plus `distance(last, start)` when
`roundTrip`, else `distance(last, end)` when `end` is present, else 0; and a
1-stop round trip with a start depot costs `2 × distance(start, stop)`. -/
theorem routeDistanceKm_spec :
    (∀ (start : LatLng ℝ) (endP : Option (LatLng ℝ))
        (pts : List (LatLng ℝ)) (rt : Bool),
        routeDistanceKm haversine start endP pts [] rt = 0) ∧
    (∀ (start : LatLng ℝ) (endP : Option (LatLng ℝ))
        (pts : List (LatLng ℝ)) (rt : Bool) (order : List ℕ),
        order ≠ [] → (∀ i ∈ order, i < pts.length) →
        routeDistanceKm haversine start endP pts order rt =
          haversine start (pts.getD (order.headD 0) pt0) +
            consecSum haversine pts order +
            (if rt then haversine (pts.getD (order.getLastD 0) pt0) start
             else
               match endP with
               | some e => haversine (pts.getD (order.getLastD 0) pt0) e
               | none => 0)) ∧
    (∀ start p : LatLng ℝ,
        routeDistanceKm haversine start none [p] [0] true =
          2 * haversine start p) := by
  refine ⟨fun _ _ _ _ => rfl, ?_, ?_⟩
  · intro start endP pts rt order hne _
    match order with
    | [] => exact absurd rfl hne
    | o0 :: rest =>
      have hpath :
          pathSum haversine pts start (o0 :: rest) =
            haversine start (pts.getD o0 pt0) +
              consecSum haversine pts (o0 :: rest) := by
        simp only [pathSum, pathSum_eq_consecSum]
      have hlast :
          lastPos pts start (o0 :: rest) =
            pts.getD ((o0 :: rest).getLastD 0) pt0 :=
        lastPos_eq_getLastD pts (o0 :: rest) start 0 (by simp)
      cases rt with
      | true =>
        simp only [routeDistanceKm]
        rw [foldl_routeStep]
        simp [hpath, hlast]
      | false =>
        cases endP with
        | some e =>
          simp only [routeDistanceKm]
          rw [foldl_routeStep]
          simp [hpath, hlast]
        | none =>
          simp only [routeDistanceKm]
          rw [foldl_routeStep]
          simp [hpath, hlast]
  · intro start p
    have h2 : routeDistanceKm haversine start none [p] [0] true =
        haversine start p + haversine p start := by
      simp only [routeDistanceKm]
      rw [foldl_routeStep]
      simp [pathSum, lastPos]
    rw [h2, haversine_symm p start]
    ring

theorem routeDistanceKm_spec_witness :
    (([0, 1] : List ℕ) ≠ [] ∧ ∀ i ∈ ([0, 1] : List ℕ),
      i < ([⟨1, 1⟩, ⟨2, 2⟩] : List (LatLng ℝ)).length) ∧
    routeDistanceKm haversine ⟨0, 0⟩ none [⟨1, 1⟩, ⟨2, 2⟩] [0, 1] true =
      haversine ⟨0, 0⟩ (([⟨1, 1⟩, ⟨2, 2⟩] : List (LatLng ℝ)).getD
        (([0, 1] : List ℕ).headD 0) pt0) +
        consecSum haversine [⟨1, 1⟩, ⟨2, 2⟩] [0, 1] +
        (if true then
          haversine (([⟨1, 1⟩, ⟨2, 2⟩] : List (LatLng ℝ)).getD
            (([0, 1] : List ℕ).getLastD 0) pt0) ⟨0, 0⟩
         else 0) :=
  ⟨⟨by decide, by decide⟩, by
    have h := routeDistanceKm_spec.2.1 ⟨0, 0⟩ none [⟨1, 1⟩, ⟨2, 2⟩] true
      [0, 1] (by decide) (by decide)
    simpa using h⟩

end RouteTheorems

section PolylineTheorems

variable {α : Type} [LinearOrderedField α]

theorem nearlyEqual_refl (a : α) : nearlyEqual a a := by
  unfold nearlyEqual
  rw [sub_self, abs_zero]
  norm_num

theorem ensureClosed_not_roundTrip (path : List (α × α)) :
    ensureClosed path false = path := by
  unfold ensureClosed
  rw [if_pos (Or.inl rfl)]

theorem ensureClosed_short (path : List (α × α)) (rt : Bool)
    (h : path.length < 2) : ensureClosed path rt = path := by
  unfold ensureClosed
  rw [if_pos (Or.inr h)]

theorem ensureClosed_long (path : List (α × α))
    (h : ¬ path.length < 2) :
    ensureClosed path true =
      if ¬ nearlyEqual (path.headD (0, 0)).1 (path.getLastD (0, 0)).1 ∨
          ¬ nearlyEqual (path.headD (0, 0)).2 (path.getLastD (0, 0)).2 then
        path ++ [path.headD (0, 0)]
      else path := by
  unfold ensureClosed
  rw [if_neg]
  rintro (h1 | h2)
  · simp at h1
  · exact h h2

theorem ensureClosed_ends (path : List (α × α))
    (hne : ensureClosed path true ≠ []) :
    nearlyEqual ((ensureClosed path true).headD (0, 0)).1
        ((ensureClosed path true).getLastD (0, 0)).1 ∧
      nearlyEqual ((ensureClosed path true).headD (0, 0)).2
        ((ensureClosed path true).getLastD (0, 0)).2 := by
  by_cases hlen : path.length < 2
  · rw [ensureClosed_short path true hlen] at hne ⊢
    match path with
    | [] => exact absurd rfl hne
    | [x] => exact ⟨nearlyEqual_refl _, nearlyEqual_refl _⟩
    | x :: y :: t => simp at hlen; omega
  · rw [ensureClosed_long path hlen]
    match path, hlen with
    | [], hlen => exact absurd (by simp) hlen
    | p :: t, _ =>
      by_cases hcond : ¬ nearlyEqual ((p :: t).headD (0, 0)).1
          (((p :: t)).getLastD (0, 0)).1 ∨
          ¬ nearlyEqual ((p :: t).headD (0, 0)).2
            (((p :: t)).getLastD (0, 0)).2
      · rw [if_pos hcond]
        constructor
        · rw [show ((p :: t) ++ [(p :: t).headD (0, 0)]).headD (0, 0) = p
            from rfl,
            List.getLastD_concat]
          exact nearlyEqual_refl _
        · rw [show ((p :: t) ++ [(p :: t).headD (0, 0)]).headD (0, 0) = p
            from rfl,
            List.getLastD_concat]
          exact nearlyEqual_refl _
      · rw [if_neg hcond]
        push_neg at hcond
        exact hcond

theorem ensureClosed_idem (path : List (α × α)) (rt : Bool) :
    ensureClosed (ensureClosed path rt) rt = ensureClosed path rt := by
  cases rt with
  | false => rw [ensureClosed_not_roundTrip, ensureClosed_not_roundTrip]
  | true =>
    by_cases hlen : path.length < 2
    · rw [ensureClosed_short path true hlen, ensureClosed_short path true hlen]
    · rw [ensureClosed_long path hlen]
      by_cases hcond : ¬ nearlyEqual (path.headD (0, 0)).1
          (path.getLastD (0, 0)).1 ∨
          ¬ nearlyEqual (path.headD (0, 0)).2 (path.getLastD (0, 0)).2
      · rw [if_pos hcond]
        match path, hlen, hcond with
        | [], hlen, _ => exact absurd (by simp) hlen
        | p :: t, _, hcond =>
          have hlen2 : ¬ ((p :: t) ++ [(p :: t).headD (0, 0)]).length < 2 := by
            simp
          rw [ensureClosed_long _ hlen2, if_neg]
          rw [show ((p :: t) ++ [(p :: t).headD (0, 0)]).headD (0, 0) = p
            from rfl,
            List.getLastD_concat]
          push_neg
          exact ⟨nearlyEqual_refl _, nearlyEqual_refl _⟩
      · rw [if_neg hcond, ensureClosed_long path hlen, if_neg hcond]

/-- C8: with `roundTrip = true` the polyline built by `orderToPolyline` has
(when non-empty) first and last coordinates equal within `1e-9` in each
coordinate, and the closing repair is idempotent: `ensureClosed` applied to
an already produced polyline returns it unchanged. -/
theorem orderToPolyline_closed (order : List ℕ) (cities : List (LatLng α))
    (opts : PolyOpts α) (hrt : opts.roundTrip = true) :
    (orderToPolyline order cities opts ≠ [] →
      nearlyEqual ((orderToPolyline order cities opts).headD (0, 0)).1
          ((orderToPolyline order cities opts).getLastD (0, 0)).1 ∧
        nearlyEqual ((orderToPolyline order cities opts).headD (0, 0)).2
          ((orderToPolyline order cities opts).getLastD (0, 0)).2) ∧
    ensureClosed (orderToPolyline order cities opts) opts.roundTrip =
      orderToPolyline order cities opts := by
  constructor
  · intro hne
    have h1 : orderToPolyline order cities opts =
        ensureClosed (orderToPolyline order cities opts) opts.roundTrip := by
      unfold orderToPolyline
      rw [ensureClosed_idem]
    rw [h1]
    rw [h1] at hne
    rw [hrt] at hne ⊢
    exact ensureClosed_ends _ hne
  · unfold orderToPolyline
    rw [ensureClosed_idem]

theorem orderToPolyline_closed_witness :
    ((⟨true, some ⟨0, 0⟩, none⟩ : PolyOpts ℚ).roundTrip = true ∧
      orderToPolyline [0] [⟨1, 1⟩] (⟨true, some ⟨0, 0⟩, none⟩ : PolyOpts ℚ) ≠
        []) ∧
    (nearlyEqual
        ((orderToPolyline [0] [⟨1, 1⟩]
          (⟨true, some ⟨0, 0⟩, none⟩ : PolyOpts ℚ)).headD (0, 0)).1
        ((orderToPolyline [0] [⟨1, 1⟩]
          (⟨true, some ⟨0, 0⟩, none⟩ : PolyOpts ℚ)).getLastD (0, 0)).1 ∧
      nearlyEqual
        ((orderToPolyline [0] [⟨1, 1⟩]
          (⟨true, some ⟨0, 0⟩, none⟩ : PolyOpts ℚ)).headD (0, 0)).2
        ((orderToPolyline [0] [⟨1, 1⟩]
          (⟨true, some ⟨0, 0⟩, none⟩ : PolyOpts ℚ)).getLastD (0, 0)).2) ∧
    ensureClosed
        (orderToPolyline [0] [⟨1, 1⟩]
          (⟨true, some ⟨0, 0⟩, none⟩ : PolyOpts ℚ))
        (⟨true, some ⟨0, 0⟩, none⟩ : PolyOpts ℚ).roundTrip =
      orderToPolyline [0] [⟨1, 1⟩] (⟨true, some ⟨0, 0⟩, none⟩ : PolyOpts ℚ) := by
  have h := orderToPolyline_closed [0] [⟨1, 1⟩]
    (⟨true, some ⟨0, 0⟩, none⟩ : PolyOpts ℚ) rfl
  have hne : orderToPolyline [0] [⟨1, 1⟩]
      (⟨true, some ⟨0, 0⟩, none⟩ : PolyOpts ℚ) ≠ [] := by
    norm_num [orderToPolyline, ensureClosed, nearlyEqual, coord, pt0]
    simp
  exact ⟨⟨rfl, hne⟩, h.1 hne, h.2⟩

end PolylineTheorems

section RoundTripTheorems

variable {α : Type} [LinearOrderedField α]

theorem ensureClosed_already_closed (x : α × α) (l : List (α × α)) :
    ensureClosed ((x :: l) ++ [x]) true = (x :: l) ++ [x] := by
  have hh : (((x :: l) ++ [x]).headD (0, 0)) = x := by simp
  have hg : (((x :: l) ++ [x]).getLastD (0, 0)) = x :=
    List.getLastD_concat _ _ _
  have hlen : ¬ ((x :: l) ++ [x]).length < 2 := by simp
  rw [ensureClosed_long _ hlen, if_neg]
  push_neg
  rw [hh, hg]
  exact ⟨nearlyEqual_refl _, nearlyEqual_refl _⟩

/-- C2 counterexample: with `roundTrip = true` and an explicit `end` point,
`orderToPolyline` does **not** ignore the end point — the polyline with
`end = (5,5)` differs from the polyline with no end. -/
theorem orderToPolyline_end_not_ignored :
    orderToPolyline (α := ℚ) [0] [⟨1, 1⟩] ⟨true, some ⟨0, 0⟩, some ⟨5, 5⟩⟩ ≠
      orderToPolyline (α := ℚ) [0] [⟨1, 1⟩] ⟨true, some ⟨0, 0⟩, none⟩ := by
  norm_num [orderToPolyline, ensureClosed, nearlyEqual, coord, pt0]

/-- C2 (amended): with `roundTrip = true` the tour distance ignores `end`
entirely, and the polyline closes back to `start` (or, when no `start` is
given, to the first visited stop) — but only when no `end` point is
supplied; a supplied `end` is emitted into the polyline before the closing
repair, so it does contribute to the polyline. -/
theorem roundTrip_end_semantics :
    (∀ (hv : LatLng α → LatLng α → α) (start e : LatLng α)
        (pts : List (LatLng α)) (order : List ℕ),
        routeDistanceKm hv start (some e) pts order true =
          routeDistanceKm hv start none pts order true) ∧
    (∀ (cities : List (LatLng α)) (s : LatLng α) (order : List ℕ),
        orderToPolyline order cities ⟨true, some s, none⟩ =
          (coord s :: order.map fun idx => coord (cities.getD idx pt0)) ++
            [coord s]) ∧
    (∀ (cities : List (LatLng α)) (i : ℕ) (rest : List ℕ),
        orderToPolyline (i :: rest) cities ⟨true, none, none⟩ =
          (coord (cities.getD i pt0) ::
              rest.map fun idx => coord (cities.getD idx pt0)) ++
            [coord (cities.getD i pt0)]) ∧
    (∀ (cities : List (LatLng α)) (st : Option (LatLng α)) (e : LatLng α)
        (order : List ℕ),
        orderToPolyline order cities ⟨true, st, some e⟩ =
          ensureClosed
            (((match st with
               | some s => [coord s]
               | none => []) ++
                order.map fun idx => coord (cities.getD idx pt0)) ++
              [coord e])
            true) := by
  refine ⟨?_, ?_, ?_, ?_⟩
  · intro hv start e pts order
    cases order with
    | nil => rfl
    | cons o0 rest => rfl
  · intro cities s order
    show ensureClosed
      ((coord s :: order.map fun idx => coord (cities.getD idx pt0)) ++
        [coord s]) true = _
    exact ensureClosed_already_closed _ _
  · intro cities i rest
    show ensureClosed
      ((coord (cities.getD i pt0) ::
          rest.map fun idx => coord (cities.getD idx pt0)) ++
        [coord (cities.getD i pt0)]) true = _
    exact ensureClosed_already_closed _ _
  · intro cities st e order
    rfl

end RoundTripTheorems

section GreedyTheorems

variable {α : Type} [LinearOrderedField α]

theorem selStep_fold_min (hv : LatLng α → LatLng α → α)
    (pts : List (LatLng α)) (cur : LatLng α) :
    ∀ (l : List ℕ) (b0 : ℕ),
      (∀ j ∈ l, b0 < j) → l.Pairwise (· < ·) →
      ∃ b,
        l.foldl (selStep hv pts cur)
            (some (b0, hv cur (pts.getD b0 pt0))) =
          some (b, hv cur (pts.getD b pt0)) ∧
        (b = b0 ∨ b ∈ l) ∧
        (∀ j, (j = b0 ∨ j ∈ l) →
          hv cur (pts.getD b pt0) ≤ hv cur (pts.getD j pt0)) ∧
        (∀ j, (j = b0 ∨ j ∈ l) →
          hv cur (pts.getD j pt0) = hv cur (pts.getD b pt0) → b ≤ j) := by
  intro l
  induction l with
  | nil =>
    intro b0 _ _
    refine ⟨b0, rfl, Or.inl rfl, ?_, ?_⟩
    · intro j hj
      rcases hj with rfl | h
      · exact le_refl _
      · exact absurd h (List.not_mem_nil j)
    · intro j hj _
      rcases hj with rfl | h
      · exact le_refl _
      · exact absurd h (List.not_mem_nil j)
  | cons i t ih =>
    intro b0 hb hp
    have hb0i : b0 < i := hb i (List.mem_cons_self i t)
    have hbt : ∀ j ∈ t, b0 < j := fun j hj => hb j (List.mem_cons_of_mem i hj)
    have hit : ∀ j ∈ t, i < j := (List.pairwise_cons.mp hp).1
    have hpt : t.Pairwise (· < ·) := (List.pairwise_cons.mp hp).2
    simp only [List.foldl_cons]
    by_cases hlt : hv cur (pts.getD i pt0) < hv cur (pts.getD b0 pt0)
    · have hstep : selStep hv pts cur
          (some (b0, hv cur (pts.getD b0 pt0))) i =
          some (i, hv cur (pts.getD i pt0)) := by
        simp only [selStep]
        rw [if_pos hlt]
      rw [hstep]
      obtain ⟨b, heq, hmem, hmin, htie⟩ := ih i hit hpt
      refine ⟨b, heq, ?_, ?_, ?_⟩
      · rcases hmem with rfl | h
        · exact Or.inr (List.mem_cons_self _ _)
        · exact Or.inr (List.mem_cons_of_mem _ h)
      · intro j hj
        rcases hj with rfl | hj2
        · exact le_of_lt (lt_of_le_of_lt (hmin i (Or.inl rfl)) hlt)
        · rcases List.mem_cons.mp hj2 with rfl | hj3
          · exact hmin j (Or.inl rfl)
          · exact hmin j (Or.inr hj3)
      · intro j hj hEq
        rcases hj with rfl | hj2
        · exact absurd hEq.symm
            (ne_of_lt (lt_of_le_of_lt (hmin i (Or.inl rfl)) hlt))
        · rcases List.mem_cons.mp hj2 with rfl | hj3
          · exact htie j (Or.inl rfl) hEq
          · exact htie j (Or.inr hj3) hEq
    · have hstep : selStep hv pts cur
          (some (b0, hv cur (pts.getD b0 pt0))) i =
          some (b0, hv cur (pts.getD b0 pt0)) := by
        simp only [selStep]
        rw [if_neg hlt]
      rw [hstep]
      obtain ⟨b, heq, hmem, hmin, htie⟩ := ih b0 hbt hpt
      have hge : hv cur (pts.getD b0 pt0) ≤ hv cur (pts.getD i pt0) :=
        not_lt.mp hlt
      refine ⟨b, heq, ?_, ?_, ?_⟩
      · rcases hmem with rfl | h
        · exact Or.inl rfl
        · exact Or.inr (List.mem_cons_of_mem _ h)
      · intro j hj
        rcases hj with rfl | hj2
        · exact hmin j (Or.inl rfl)
        · rcases List.mem_cons.mp hj2 with rfl | hj3
          · exact le_trans (hmin b0 (Or.inl rfl)) hge
          · exact hmin j (Or.inr hj3)
      · intro j hj hEq
        rcases hj with rfl | hj2
        · exact htie j (Or.inl rfl) hEq
        · rcases List.mem_cons.mp hj2 with rfl | hj3
          · have h1 : hv cur (pts.getD b pt0) ≤ hv cur (pts.getD b0 pt0) :=
              hmin b0 (Or.inl rfl)
            have h2 : hv cur (pts.getD b0 pt0) = hv cur (pts.getD b pt0) := by
              refine le_antisymm ?_ h1
              rw [← hEq]
              exact hge
            have hble : b ≤ b0 := htie b0 (Or.inl rfl) h2
            exact le_of_lt (lt_of_le_of_lt hble hb0i)
          · exact htie j (Or.inr hj3) hEq

theorem selectNearest_spec (hv : LatLng α → LatLng α → α)
    (pts : List (LatLng α)) (cur : LatLng α) :
    ∀ (unvis : List ℕ), unvis.Pairwise (· < ·) → unvis ≠ [] →
      ∃ b, selectNearest hv pts cur unvis = some b ∧ b ∈ unvis ∧
        (∀ j ∈ unvis, hv cur (pts.getD b pt0) ≤ hv cur (pts.getD j pt0)) ∧
        (∀ j ∈ unvis,
          hv cur (pts.getD j pt0) = hv cur (pts.getD b pt0) → b ≤ j) := by
  intro unvis hp hne
  match unvis, hp, hne with
  | u :: us, hp, _ =>
    have h1 : ∀ j ∈ us, u < j := (List.pairwise_cons.mp hp).1
    have h2 : us.Pairwise (· < ·) := (List.pairwise_cons.mp hp).2
    obtain ⟨b, heq, hmem, hmin, htie⟩ := selStep_fold_min hv pts cur us u h1 h2
    refine ⟨b, ?_, ?_, ?_, ?_⟩
    · unfold selectNearest
      simp only [List.foldl_cons]
      have hfirst : selStep hv pts cur none u =
          some (u, hv cur (pts.getD u pt0)) := rfl
      rw [hfirst, heq]
      rfl
    · rcases hmem with rfl | h
      · exact List.mem_cons_self _ _
      · exact List.mem_cons_of_mem _ h
    · intro j hj
      rcases List.mem_cons.mp hj with rfl | h3
      · exact hmin j (Or.inl rfl)
      · exact hmin j (Or.inr h3)
    · intro j hj
      rcases List.mem_cons.mp hj with rfl | h3
      · exact htie j (Or.inl rfl)
      · exact htie j (Or.inr h3)

theorem greedyGo_spec (hv : LatLng α → LatLng α → α)
    (pts : List (LatLng α)) :
    ∀ (fuel : ℕ) (unvis : List ℕ) (cur : LatLng α),
      unvis.Pairwise (· < ·) → unvis.length ≤ fuel →
      IsGreedy hv pts cur unvis (greedyGo hv pts fuel cur unvis) ∧
        (greedyGo hv pts fuel cur unvis).Perm unvis := by
  intro fuel
  induction fuel with
  | zero =>
    intro unvis cur hp hlen
    have hnil : unvis = [] := List.length_eq_zero.mp (Nat.le_zero.mp hlen)
    subst hnil
    exact ⟨IsGreedy.nil cur, List.Perm.refl []⟩
  | succ fuel ih =>
    intro unvis cur hp hlen
    match unvis, hp, hlen with
    | [], _, _ => exact ⟨IsGreedy.nil cur, List.Perm.refl []⟩
    | u :: us, hp, hlen =>
      obtain ⟨b, hsel, hmem, hmin, htie⟩ :=
        selectNearest_spec hv pts cur (u :: us) hp (by simp)
      have herase_pw : ((u :: us).erase b).Pairwise (· < ·) :=
        List.Pairwise.sublist (List.erase_sublist b (u :: us)) hp
      have herase_len : ((u :: us).erase b).length ≤ fuel := by
        rw [List.length_erase_of_mem hmem]
        simp only [List.length_cons] at hlen ⊢
        omega
      obtain ⟨hrest, hperm⟩ :=
        ih ((u :: us).erase b) (pts.getD b pt0) herase_pw herase_len
      have hgo : greedyGo hv pts (fuel + 1) cur (u :: us) =
          b :: greedyGo hv pts fuel (pts.getD b pt0) ((u :: us).erase b) := by
        show (match selectNearest hv pts cur (u :: us) with
          | none => []
          | some b =>
            b :: greedyGo hv pts fuel (pts.getD b pt0) ((u :: us).erase b)) =
          _
        rw [hsel]
      rw [hgo]
      exact ⟨IsGreedy.cons cur (u :: us) b _ hmem hmin htie hrest,
        (hperm.cons b).trans (List.perm_cons_erase hmem).symm⟩

/-- C9: for every start point and stop list, `greedyRoute` with the
haversine metric returns a permutation of `[0..N)` in which each successive
element is, among the still-unvisited stops, one at minimum haversine
distance from the current position, ties broken by the lowest stop index
(the `IsGreedy` characterisation). -/
theorem greedyRoute_spec (start : LatLng ℝ) (pts : List (LatLng ℝ)) :
    (greedyRoute haversine start pts).Perm (List.range pts.length) ∧
      IsGreedy haversine pts start (List.range pts.length)
        (greedyRoute haversine start pts) := by
  have h := greedyGo_spec haversine pts pts.length (List.range pts.length)
    start (List.pairwise_lt_range _) (by simp)
  exact ⟨h.2, h.1⟩

end GreedyTheorems

section AnnealingTheorems

variable {α : Type} [LinearOrderedField α]

theorem list_set_getD_self : ∀ (l : List ℕ) (i : ℕ),
    l.set i (l.getD i 0) = l
  | [], _ => rfl
  | _ :: _, 0 => rfl
  | a :: t, n + 1 => congrArg (List.cons a) (list_set_getD_self t n)

theorem saStep_reject (Q : List (List α)) (s : SAState α) (i : ℕ) :
    saStep Q s i false = s := by
  show { s with
    x := (s.x.set i (s.x.getD i 0 ^^^ 1)).set i (s.x.getD i 0) } = s
  rw [List.set_set, list_set_getD_self]

theorem temp_eq_tempSpec (t0 t1 : α) (total k : ℕ) (hk : k < total) :
    temp t0 t1 total k = tempSpec t0 t1 total k := by
  match total, hk with
  | 1, _ =>
    have hk0 : k = 0 := by omega
    subst hk0
    simp [temp, tempSpec]
  | n + 2, _ =>
    have hmax : max 1 (n + 2 - 1) = n + 1 := by omega
    rw [temp, tempSpec, hmax, show (n + 2 - 1 : ℕ) = n + 1 from rfl]
    ring

theorem saStep_bestE_le (Q : List (List α)) (s : SAState α) (i : ℕ)
    (acc : Bool) : (saStep Q s i acc).bestE ≤ s.bestE := by
  cases acc with
  | false => exact le_refl _
  | true =>
    show (if energyQubo Q (s.x.set i (s.x.getD i 0 ^^^ 1)) < s.bestE then
        energyQubo Q (s.x.set i (s.x.getD i 0 ^^^ 1))
      else s.bestE) ≤ s.bestE
    split_ifs with h
    · exact le_of_lt h
    · exact le_refl _

theorem saRun_bestE_le (Q : List (List α)) :
    ∀ (props : List (ℕ × Bool)) (s : SAState α),
      (saRun Q s props).bestE ≤ s.bestE := by
  intro props
  induction props with
  | nil => intro s; exact le_refl _
  | cons p ps ih =>
    intro s
    exact le_trans (ih (saStep Q s p.1 p.2)) (saStep_bestE_le Q s p.1 p.2)

theorem saRun_append (Q : List (List α)) (s : SAState α)
    (l1 l2 : List (ℕ × Bool)) :
    saRun Q s (l1 ++ l2) = saRun Q (saRun Q s l1) l2 := by
  simp [saRun, List.foldl_append]

theorem saBatchState_le (Q : List (List α)) (s0 : SAState α)
    (batches : List (List (ℕ × Bool))) (i j : ℕ) (hij : i ≤ j) :
    (saBatchState Q s0 batches j).bestE ≤
      (saBatchState Q s0 batches i).bestE := by
  have h1 : List.take i (List.take j batches) = List.take i batches := by
    rw [List.take_take, min_eq_left hij]
  have hsplit : (batches.take j).flatten =
      (batches.take i).flatten ++ ((batches.take j).drop i).flatten := by
    rw [← List.flatten_append]
    congr 1
    rw [← h1, List.take_append_drop]
  unfold saBatchState
  rw [hsplit, saRun_append]
  exact saRun_bestE_le Q _ _

theorem saLoop_reaches_batch (Q : List (List α)) (stop : ℕ → Bool) :
    ∀ (batches : List (List (ℕ × Bool))) (s : SAState α) (j0 : ℕ),
      ∃ m, m ≤ batches.length ∧
        saLoop Q s batches stop j0 = saRun Q s (batches.take m).flatten := by
  intro batches
  induction batches with
  | nil =>
    intro s j0
    exact ⟨0, le_refl _, rfl⟩
  | cons b rest ih =>
    intro s j0
    by_cases hstop : stop j0 = true
    · refine ⟨0, by simp, ?_⟩
      show (if stop j0 then s else _) = _
      rw [if_pos hstop]
      rfl
    · obtain ⟨m, hm, heq⟩ := ih (saRun Q s b) (j0 + 1)
      refine ⟨m + 1, by simpa using hm, ?_⟩
      show (if stop j0 then s else saLoop Q (saRun Q s b) rest stop (j0 + 1)) =
        _
      rw [if_neg hstop, heq, List.take_succ_cons, List.flatten_cons,
        saRun_append]

/-- C5: across a run, the best-known energy published at batch boundaries is
non-increasing, and the cancellable loop always exits in the state of some
completed batch, whose best energy is at least as good as that of every
earlier batch snapshot (cancellation never discards progress). -/
theorem saBest_monotone_cancel (Q : List (List α)) (s0 : SAState α)
    (batches : List (List (ℕ × Bool))) (stop : ℕ → Bool) :
    (∀ i j, i ≤ j →
      (saBatchState Q s0 batches j).bestE ≤
        (saBatchState Q s0 batches i).bestE) ∧
    ∃ m, m ≤ batches.length ∧
      saLoop Q s0 batches stop 0 = saBatchState Q s0 batches m ∧
      ∀ i, i ≤ m →
        (saLoop Q s0 batches stop 0).bestE ≤
          (saBatchState Q s0 batches i).bestE := by
  refine ⟨fun i j hij => saBatchState_le Q s0 batches i j hij, ?_⟩
  obtain ⟨m, hm, heq⟩ := saLoop_reaches_batch Q stop batches s0 0
  refine ⟨m, hm, heq, ?_⟩
  intro i hi
  rw [heq]
  exact saBatchState_le Q s0 batches i m hi

theorem saBest_monotone_cancel_witness :
    (saBatchState [[(1 : ℚ)]] (saInit [[1]] [1]) [[(0, true)], [(0, true)]]
        1).bestE ≤
      (saBatchState [[(1 : ℚ)]] (saInit [[1]] [1]) [[(0, true)], [(0, true)]]
        0).bestE :=
  (saBest_monotone_cancel [[(1 : ℚ)]] (saInit [[1]] [1])
    [[(0, true)], [(0, true)]] (fun _ => false)).1 0 1 (by omega)

/-- C10: starting from the reset state, after any sequence of proposals the
best-known energy is at most the current energy and the best snapshot
actually achieves it: `energyQubo Q bestX = bestE` (in this by-value model
the snapshot is automatically independent of later in-place flips of the
working assignment). -/
theorem saRun_best_invariant (Q : List (List α)) (x0 : List ℕ)
    (props : List (ℕ × Bool)) :
    (saRun Q (saInit Q x0) props).bestE ≤ (saRun Q (saInit Q x0) props).E ∧
      energyQubo Q (saRun Q (saInit Q x0) props).bestX =
        (saRun Q (saInit Q x0) props).bestE := by
  suffices h : ∀ (props : List (ℕ × Bool)) (s : SAState α),
      s.bestE ≤ s.E → energyQubo Q s.bestX = s.bestE →
      (saRun Q s props).bestE ≤ (saRun Q s props).E ∧
        energyQubo Q (saRun Q s props).bestX = (saRun Q s props).bestE by
    exact h props (saInit Q x0) (le_refl _) rfl
  intro props
  induction props with
  | nil => intro s h1 h2; exact ⟨h1, h2⟩
  | cons p ps ih =>
    intro s h1 h2
    obtain ⟨pi, pacc⟩ := p
    apply ih
    · cases pacc with
      | false => exact h1
      | true =>
        show (if energyQubo Q (s.x.set pi (s.x.getD pi 0 ^^^ 1)) < s.bestE
            then energyQubo Q (s.x.set pi (s.x.getD pi 0 ^^^ 1))
            else s.bestE) ≤
          energyQubo Q (s.x.set pi (s.x.getD pi 0 ^^^ 1))
        split_ifs with h
        · exact le_refl _
        · exact not_lt.mp h
    · cases pacc with
      | false => exact h2
      | true =>
        show energyQubo Q
            (if energyQubo Q (s.x.set pi (s.x.getD pi 0 ^^^ 1)) < s.bestE
             then s.x.set pi (s.x.getD pi 0 ^^^ 1)
             else s.bestX) =
          (if energyQubo Q (s.x.set pi (s.x.getD pi 0 ^^^ 1)) < s.bestE
           then energyQubo Q (s.x.set pi (s.x.getD pi 0 ^^^ 1))
           else s.bestE)
        split_ifs with h
        · rfl
        · exact h2

/-- C4: proposal `k` of the annealing loop uses the temperature
`T0 + (T1−T0)·k/(steps−1)`, and the step with flipped bit `i` and uniform
draw `u` is accepted exactly when `ΔE ≤ 0` or `u < exp(−ΔE/max(T, ε))` with
`ε = 1e-9 > 0`; on acceptance the current energy becomes the energy of the
flipped assignment, on rejection the flipped bit is reverted and the state
is unchanged. -/
theorem saStepR_spec (Q : List (List ℝ)) (t0 t1 : ℝ) (total k i : ℕ)
    (u : ℝ) (s : SAState ℝ) (hk : k < total) :
    temp t0 t1 total k = tempSpec t0 t1 total k ∧
    (0 : ℝ) < 1 / 1000000000 ∧
    (metropolisAccept (energyQubo Q (s.x.set i (s.x.getD i 0 ^^^ 1)) - s.E)
        (temp t0 t1 total k) u ↔
      energyQubo Q (s.x.set i (s.x.getD i 0 ^^^ 1)) - s.E ≤ 0 ∨
        u < Real.exp
          (-(energyQubo Q (s.x.set i (s.x.getD i 0 ^^^ 1)) - s.E) /
            max (temp t0 t1 total k) (1 / 1000000000))) ∧
    (metropolisAccept (energyQubo Q (s.x.set i (s.x.getD i 0 ^^^ 1)) - s.E)
        (temp t0 t1 total k) u →
      saStepR Q t0 t1 total k i u s = saStep Q s i true) ∧
    (¬ metropolisAccept
        (energyQubo Q (s.x.set i (s.x.getD i 0 ^^^ 1)) - s.E)
        (temp t0 t1 total k) u →
      saStepR Q t0 t1 total k i u s = saStep Q s i false) ∧
    (saStep Q s i true).x = s.x.set i (s.x.getD i 0 ^^^ 1) ∧
    (saStep Q s i true).E = energyQubo Q (s.x.set i (s.x.getD i 0 ^^^ 1)) ∧
    saStep Q s i false = s := by
  refine ⟨temp_eq_tempSpec t0 t1 total k hk, by norm_num, ?_, ?_, ?_, rfl,
    rfl, saStep_reject Q s i⟩
  · unfold metropolisAccept
    rw [max_comm]
  · intro h
    have h2 : energyQubo Q (s.x.set i (s.x.getD i 0 ^^^ 1)) - s.E ≤ 0 ∨
        u < Real.exp
          (-(energyQubo Q (s.x.set i (s.x.getD i 0 ^^^ 1)) - s.E) /
            max (1 / 1000000000) (temp t0 t1 total k)) := h
    show (if energyQubo Q (s.x.set i (s.x.getD i 0 ^^^ 1)) - s.E ≤ 0 ∨
        u < Real.exp
          (-(energyQubo Q (s.x.set i (s.x.getD i 0 ^^^ 1)) - s.E) /
            max (1 / 1000000000) (temp t0 t1 total k)) then _ else _) = _
    rw [if_pos h2]
    rfl
  · intro h
    have h2 : ¬ (energyQubo Q (s.x.set i (s.x.getD i 0 ^^^ 1)) - s.E ≤ 0 ∨
        u < Real.exp
          (-(energyQubo Q (s.x.set i (s.x.getD i 0 ^^^ 1)) - s.E) /
            max (1 / 1000000000) (temp t0 t1 total k))) := h
    show (if energyQubo Q (s.x.set i (s.x.getD i 0 ^^^ 1)) - s.E ≤ 0 ∨
        u < Real.exp
          (-(energyQubo Q (s.x.set i (s.x.getD i 0 ^^^ 1)) - s.E) /
            max (1 / 1000000000) (temp t0 t1 total k)) then _ else _) = _
    rw [if_neg h2]
    rfl

theorem saStepR_spec_witness :
    (0 < 5 ∧
      temp (2 : ℝ) (1 / 100) 5 0 = tempSpec (2 : ℝ) (1 / 100) 5 0) :=
  ⟨by omega, (saStepR_spec [[(1 : ℝ)]] 2 (1 / 100) 5 0 0 0
    (saInit [[(1 : ℝ)]] [0]) (by omega)).1⟩

end AnnealingTheorems

section ResetTheorems

/-- C6 (failing-input evaluation): the reset effect's dependency is the
matrix size `n`, so editing the 6×6 Max-Cut preset into a different 6×6
matrix changes the matrix without firing the reset. -/
theorem resetEffect_misses_same_size_change :
    PRESET_MAXCUT_6 ≠ PRESET_MAXCUT_6_variant ∧
    PRESET_MAXCUT_6.length = PRESET_MAXCUT_6_variant.length ∧
    resetEffectFires PRESET_MAXCUT_6.length PRESET_MAXCUT_6_variant.length =
      false :=
  ⟨by decide, rfl, rfl⟩

end ResetTheorems

section ParseTheorems

theorem csvParse_uniform (s : String) (m : List (List ℚ))
    (h : csvParse s = some m) :
    m ≠ [] ∧ ∀ r ∈ m, r.length = (m.headD []).length := by
  rw [csvParse] at h
  split_ifs at h with h1 h2
  · injection h with hm
    subst hm
    refine ⟨fun hnil => h1 (by rw [hnil]; rfl), ?_⟩
    intro r hr
    simp only [List.any_eq_true, decide_eq_true_eq, not_exists, not_and,
      ne_eq, not_not] at h2
    exact h2 r hr

theorem runAllowed_none (st : RunState) :
    runAllowed (α := ℚ) none st = false := rfl

/-- C7 counterexample: a ragged matrix text that is valid JSON is accepted
by `parseMatrix` (the JSON branch has no squareness check), so it is not the
case that every accepted matrix has rows of equal length. -/
theorem parseMatrix_accepts_ragged :
    ¬ (∀ (s : String) (m : List (List ℚ)), parseMatrix s = some m →
        ∀ r ∈ m, r.length = (m.headD []).length) := by
  intro h
  have h1 := h "[[1,2],[3]]" [[1, 2], [3]] (by decide)
  have h2 := h1 [3] (by simp)
  simp at h2

/-- C7 (amended): inputs that fail the JSON branch and are ragged are
rejected by the CSV fallback (every matrix it accepts is non-empty with
rows all of the first row's length); input accepted by the JSON branch is
returned without a squareness check; and the annealing run can only start
from a successfully parsed matrix (`runAllowed none st = false`). -/
theorem parseMatrix_csv_rejects_ragged :
    (∀ (s : String) (m : List (List ℚ)),
        jsonParseMatrix s = none → parseMatrix s = some m →
        m ≠ [] ∧ ∀ r ∈ m, r.length = (m.headD []).length) ∧
    (∀ st : RunState, runAllowed (α := ℚ) none st = false) := by
  constructor
  · intro s m hjson hparse
    rw [parseMatrix, hjson] at hparse
    exact csvParse_uniform s m hparse
  · exact runAllowed_none

theorem parseMatrix_csv_rejects_ragged_witness :
    (jsonParseMatrix "1 2\n3 4" = none ∧
      parseMatrix "1 2\n3 4" = some [[1, 2], [3, 4]]) ∧
    ([[(1 : ℚ), 2], [3, 4]] ≠ ([] : List (List ℚ)) ∧
      ∀ r ∈ [[(1 : ℚ), 2], [3, 4]],
        r.length = (([[(1 : ℚ), 2], [3, 4]] : List (List ℚ)).headD
          []).length) :=
  ⟨⟨by decide, by decide⟩,
    parseMatrix_csv_rejects_ragged.1 "1 2\n3 4" [[1, 2], [3, 4]] (by decide)
      (by decide)⟩

end ParseTheorems

section OrchestratorTheorems

variable {α : Type} [LinearOrderedField α]

/-- C1 counterexample: `runOptimize` attaches the remote solver's
self-reported `distance_km` as the label's km — at a response claiming
`999` km for an empty route, the produced km is `some 999`, differs when
only the self-report differs, and is not the locally recomputed tour
distance (`0` for the empty order). -/
theorem runOptimize_km_is_self_reported :
    ((runOptimizeModel (α := ℝ) [] true none none
        ⟨some [], none, some 999, none⟩ ⟨none, none⟩).1).km = some 999 ∧
    ((runOptimizeModel (α := ℝ) [] true none none
        ⟨some [], none, some 999, none⟩ ⟨none, none⟩).1).km ≠
      ((runOptimizeModel (α := ℝ) [] true none none
        ⟨some [], none, some 111, none⟩ ⟨none, none⟩).1).km ∧
    routeDistanceKm haversine pt0 none [] [] true = 0 ∧
    (999 : ℝ) ≠ 0 := by
  refine ⟨rfl, ?_, rfl, by norm_num⟩
  intro hcon
  have h2 : (999 : ℝ) = 111 := by
    have h3 : some (999 : ℝ) = some 111 := hcon
    exact Option.some.inj h3
  norm_num at h2

/-- C1 (amended): in `RouteOptimizer.optimize` every comparison km is
recomputed locally from the returned order via
`distanceForOrderIncludingDepots` (so it cannot depend on any self-reported
distance), while `runOptimize` attaches the responses' self-reported
`distance_km`/`baseline_km` fields as each label's km. -/
theorem optimize_assembles_local_km (hv : LatLng α → LatLng α → α)
    (sellers : List (LatLng α)) (start endW : LatLng α)
    (sameAsStart : Bool) (clRes : ClWire α) (jijRes : JijWire α)
    (out : OptimizeOut α)
    (h : optimizeAssemble hv sellers start endW sameAsStart clRes jijRes =
      some out) :
    (out.naive.km = some (distanceForOrderIncludingDepots hv
        (List.range sellers.length) sellers start
        (if sameAsStart then start else endW) sameAsStart) ∧
      out.qubo.km =
        (if ((clRes.solution.bind fun s => s.order).getD []).length ≠ 0 then
          some (distanceForOrderIncludingDepots hv
            ((clRes.solution.bind fun s => s.order).getD []) sellers start
            (if sameAsStart then start else endW) sameAsStart)
         else none) ∧
      out.greedy.km =
        (if ((clRes.solution.bind fun s => s.baseline_order).getD
            []).length ≠ 0 then
          some (distanceForOrderIncludingDepots hv
            ((clRes.solution.bind fun s => s.baseline_order).getD [])
            sellers start (if sameAsStart then start else endW) sameAsStart)
         else none) ∧
      out.jij.km =
        (if (jijRes.route.getD []).length ≠ 0 then
          some (distanceForOrderIncludingDepots hv (jijRes.route.getD [])
            sellers start (if sameAsStart then start else endW) sameAsStart)
         else none)) ∧
    (∀ (points : List (LatLng α)) (rt : Bool)
        (so eo : Option (LatLng α)) (jr : JijWire α) (cr : ClWire α),
      ((runOptimizeModel points rt so eo jr cr).1).km = jr.distance_km ∧
        ((runOptimizeModel points rt so eo jr cr).2.1).km =
          (cr.solution.bind fun s => s.distance_km) ∧
        ((runOptimizeModel points rt so eo jr cr).2.2).km =
          (cr.solution.bind fun s => s.baseline_km)) := by
  refine ⟨?_, fun _ _ _ _ _ _ => ⟨rfl, rfl, rfl⟩⟩
  rw [optimizeAssemble] at h
  by_cases h1 : sellers.length < 5
  · rw [if_pos h1] at h
    cases h
  · rw [if_neg h1] at h
    by_cases h2 : clRes.ok = some false
    · rw [if_pos h2] at h
      cases h
    · rw [if_neg h2] at h
      have h3 := Option.some.inj h
      subst h3
      exact ⟨rfl, rfl, rfl, rfl⟩

theorem optimize_assembles_local_km_witness :
    optimizeAssemble (fun _ _ => (0 : ℚ))
        [⟨0, 0⟩, ⟨0, 0⟩, ⟨0, 0⟩, ⟨0, 0⟩, ⟨0, 0⟩] ⟨0, 0⟩ ⟨0, 0⟩ true
        ⟨none, none⟩ ⟨none, none, none, none⟩ =
      some
        { naive :=
            ⟨"Naive", List.range 5,
              ensureClosed
                (orderToPolyline (List.range 5)
                  [⟨0, 0⟩, ⟨0, 0⟩, ⟨0, 0⟩, ⟨0, 0⟩, ⟨0, 0⟩]
                  ⟨true, some ⟨0, 0⟩, none⟩)
                true,
              some (distanceForOrderIncludingDepots (fun _ _ => (0 : ℚ))
                (List.range 5) [⟨0, 0⟩, ⟨0, 0⟩, ⟨0, 0⟩, ⟨0, 0⟩, ⟨0, 0⟩]
                ⟨0, 0⟩ ⟨0, 0⟩ true),
              none⟩,
          qubo :=
            ⟨"QUBO (annealing)", [],
              ensureClosed
                (orderToPolyline []
                  [⟨0, 0⟩, ⟨0, 0⟩, ⟨0, 0⟩, ⟨0, 0⟩, ⟨0, 0⟩]
                  ⟨true, some ⟨0, 0⟩, none⟩)
                true,
              none, none⟩,
          greedy :=
            ⟨"Greedy baseline", [],
              ensureClosed
                (orderToPolyline []
                  [⟨0, 0⟩, ⟨0, 0⟩, ⟨0, 0⟩, ⟨0, 0⟩, ⟨0, 0⟩]
                  ⟨true, some ⟨0, 0⟩, none⟩)
                true,
              none, none⟩,
          jij :=
            ⟨"JIJ (Quantum-inspired)", [],
              ensureClosed
                (orderToPolyline []
                  [⟨0, 0⟩, ⟨0, 0⟩, ⟨0, 0⟩, ⟨0, 0⟩, ⟨0, 0⟩]
                  ⟨true, some ⟨0, 0⟩, none⟩)
                true,
              none, none⟩ } ∧
    (some (distanceForOrderIncludingDepots (fun _ _ => (0 : ℚ))
        (List.range 5) [⟨0, 0⟩, ⟨0, 0⟩, ⟨0, 0⟩, ⟨0, 0⟩, ⟨0, 0⟩] ⟨0, 0⟩
        ⟨0, 0⟩ true) : Option ℚ) =
      some (distanceForOrderIncludingDepots (fun _ _ => (0 : ℚ))
        (List.range
          ([⟨0, 0⟩, ⟨0, 0⟩, ⟨0, 0⟩, ⟨0, 0⟩, ⟨0, 0⟩] :
            List (LatLng ℚ)).length)
        [⟨0, 0⟩, ⟨0, 0⟩, ⟨0, 0⟩, ⟨0, 0⟩, ⟨0, 0⟩] ⟨0, 0⟩
        (if true then (⟨0, 0⟩ : LatLng ℚ) else ⟨0, 0⟩) true) := by
  refine ⟨rfl, ?_⟩
  exact (optimize_assembles_local_km (fun _ _ => (0 : ℚ))
    [⟨0, 0⟩, ⟨0, 0⟩, ⟨0, 0⟩, ⟨0, 0⟩, ⟨0, 0⟩] ⟨0, 0⟩ ⟨0, 0⟩ true
    ⟨none, none⟩ ⟨none, none, none, none⟩ _ rfl).1.1

end OrchestratorTheorems

end EulerQ
